import Mathlib

/-!
Verification of the ETL ingestion pipeline (`load_to_duckdb.py`).

The Python source is embedded shallowly:
* Python strings are `List Char` (ASCII fragment; `\d` in the source's
  regular expressions is modelled by `Char.isDigit`).
* Python's `re.match` of an `^...$`-anchored pattern is modelled including
  the documented behaviour of `$`, which also matches just before a single
  trailing newline.
* Fallible Python code returns `Option`/`Except`; an exception caught by a
  `try`/`except` block is an explicit branch.
* JSON numbers are modelled as exact decimals `Dec` (an integer mantissa
  with a power-of-ten scale, with a rational interpretation `Dec.toRat`);
  the results of `float(...)` are `PyFloat`: a finite exact decimal,
  an infinity, or NaN.
-/

namespace ETL

/-- Python strings, modelled as lists of characters. -/
abbrev Str := List Char

/-- Numeric value of an ASCII digit character. -/
def digitVal (c : Char) : Nat := c.toNat - 48

/-- Numeric value of a run of digit characters (most significant first). -/
def digitsVal (ds : Str) : Nat := ds.foldl (fun a c => a * 10 + digitVal c) 0

/-- An exact decimal number `num / 10 ^ scale`, as produced by parsing a
decimal literal.  Structural equality is used; the pipeline only ever
compares values produced by the same parser, so no normalisation is
needed. -/
structure Dec where
  num : Int
  scale : Nat
deriving DecidableEq, Repr

/-- Rational interpretation of a `Dec`. -/
def Dec.toRat (v : Dec) : ℚ := (v.num : ℚ) / (10 : ℚ) ^ v.scale

/-- The anchored pattern `^(\d{2})-(\d{2})-(\d{4}) (\d{2}):(\d{2})$` of
`normalize_datetime` (and, without groups, of `is_valid_measurement_row`),
matched against exactly the whole string: returns the numeric components
`(day, month, year, hour, minute)`. -/
def matchDTExact : Str → Option (Nat × Nat × Nat × Nat × Nat)
  | [d1, d2, '-', m1, m2, '-', y1, y2, y3, y4, ' ', h1, h2, ':', n1, n2] =>
    if d1.isDigit ∧ d2.isDigit ∧ m1.isDigit ∧ m2.isDigit ∧
       y1.isDigit ∧ y2.isDigit ∧ y3.isDigit ∧ y4.isDigit ∧
       h1.isDigit ∧ h2.isDigit ∧ n1.isDigit ∧ n2.isDigit then
      some (10 * digitVal d1 + digitVal d2,
            10 * digitVal m1 + digitVal m2,
            1000 * digitVal y1 + 100 * digitVal y2 + 10 * digitVal y3 + digitVal y4,
            10 * digitVal h1 + digitVal h2,
            10 * digitVal n1 + digitVal n2)
    else none
  | _ => none

/-- Python `re.match` of the anchored pattern: without `re.MULTILINE`, `$`
matches at the end of the string or just before a newline at the end of the
string, so a single trailing `'\n'` is also accepted. -/
def reMatchDT (s : Str) : Option (Nat × Nat × Nat × Nat × Nat) :=
  match matchDTExact s with
  | some r => some r
  | none => if s.getLast? = some '\n' then matchDTExact s.dropLast else none

/-- Gregorian leap year, as implemented by Python's `datetime`. -/
def isLeapYear (y : Nat) : Bool := y % 4 = 0 ∧ (y % 100 ≠ 0 ∨ y % 400 = 0)

/-- Number of days in a month. -/
def daysInMonth (y m : Nat) : Nat :=
  if m = 2 then (if isLeapYear y then 29 else 28)
  else if m = 4 ∨ m = 6 ∨ m = 9 ∨ m = 11 then 30
  else 31

/-- Validity of the date arguments of Python's `datetime(year, month, day, ...)`
constructor: years 1–9999 (its representable range), months 1–12, days
1 to the length of the month. -/
def pyDateOK (y m d : Nat) : Bool :=
  decide (1 ≤ y ∧ y ≤ 9999 ∧ 1 ≤ m ∧ m ≤ 12 ∧ 1 ≤ d ∧ d ≤ daysInMonth y m)

/-- Validity of the time arguments of `datetime(..., hour, minute)`. -/
def pyTimeOK (h mi : Nat) : Bool := decide (h ≤ 23 ∧ mi ≤ 59)

/-- `datetime(y, m, d, ...) + timedelta(days=1)`, on the date part.
`none` models the `OverflowError` raised when the result would pass
`datetime.max` (9999-12-31). -/
def addOneDay (y m d : Nat) : Option (Nat × Nat × Nat) :=
  if d < daysInMonth y m then some (y, m, d + 1)
  else if m < 12 then some (y, m + 1, 1)
  else if y < 9999 then some (y + 1, 1, 1)
  else none

/-- A number rendered as decimal digits, left-padded with zeros to width `w`. -/
def padNum (w n : Nat) : Str :=
  let ds := Nat.toDigits 10 n
  List.replicate (w - ds.length) '0' ++ ds

/-- `dt.strftime("%Y-%m-%d %H:%M:%S")` (seconds are always zero here),
with zero-padded fields. -/
def fmtTS (y m d h mi : Nat) : Str :=
  padNum 4 y ++ '-' :: padNum 2 m ++ '-' :: padNum 2 d ++ ' ' ::
    padNum 2 h ++ ':' :: padNum 2 mi ++ [':', '0', '0']

/-- `normalize_datetime` from `load_to_duckdb.py`: match the
`DD-MM-YYYY HH:MM` pattern, interpret hour 24 as midnight of the following
day (minute preserved), and render canonically; any exception inside the
`try` block (invalid date components, hour 25–99, minute 60–99, or the
day-rollover overflowing past 9999-12-31) yields `None`. -/
def normalize_datetime (s : Str) : Option Str :=
  match reMatchDT s with
  | none => none
  | some (d, m, y, h, mi) =>
    if h = 24 then
      if pyDateOK y m d ∧ mi ≤ 59 then
        match addOneDay y m d with
        | some (y2, m2, d2) => some (fmtTS y2 m2 d2 0 mi)
        | none => none
      else none
    else
      if pyDateOK y m d ∧ pyTimeOK h mi then some (fmtTS y m d h mi) else none

example : normalize_datetime ("15-03-2024 10:30".data) =
    some ("2024-03-15 10:30:00".data) := by decide

example : normalize_datetime ("29-02-2023 10:00".data) = none := by decide

/-- C2 (counterexample). The components of `"31-12-9999 24:00"` form a valid
calendar date and the hour is 24, yet normalization returns a failure, not
midnight of the following day: the rollover past `datetime.max` raises an
`OverflowError` that the surrounding handler turns into `None`. -/
theorem normalize_hour24_overflow_cex :
    pyDateOK 9999 12 31 = true ∧
    reMatchDT ("31-12-9999 24:00".data) = some (31, 12, 9999, 24, 0) ∧
    normalize_datetime ("31-12-9999 24:00".data) = none := by decide

/-- C2 (amended). For every string matching the `DD-MM-YYYY HH:MM` pattern
whose day–month–year components form a valid calendar date and whose minute
is 0–59: with hour 0–23 normalization returns the literal date and time in
canonical `YYYY-MM-DD HH:MM:SS` form; with hour 24 it returns
midnight-plus-the-minute of the following calendar day, except on 9999-12-31
where the following day is out of the representable range. -/
theorem normalize_valid_instants (s : Str) (d m y h mi : Nat)
    (hm : reMatchDT s = some (d, m, y, h, mi))
    (hd : pyDateOK y m d = true) (hmi : mi ≤ 59) :
    (h ≤ 23 → normalize_datetime s = some (fmtTS y m d h mi)) ∧
    (h = 24 → (y, m, d) ≠ (9999, 12, 31) →
      ∃ y2 m2 d2, addOneDay y m d = some (y2, m2, d2) ∧
        normalize_datetime s = some (fmtTS y2 m2 d2 0 mi)) := by
  constructor
  · intro hh
    have h24 : ¬ h = 24 := by omega
    have ht : pyTimeOK h mi = true := by
      unfold pyTimeOK; exact decide_eq_true ⟨hh, hmi⟩
    simp only [normalize_datetime, hm, if_neg h24]
    rw [if_pos ⟨hd, ht⟩]
  · intro h24 hne
    unfold pyDateOK at hd
    have hd' := of_decide_eq_true hd
    obtain ⟨h1, h2, h3, h4, h5, h6⟩ := hd'
    have ha : ∃ y2 m2 d2, addOneDay y m d = some (y2, m2, d2) := by
      unfold addOneDay
      by_cases c1 : d < daysInMonth y m
      · exact ⟨y, m, d + 1, by rw [if_pos c1]⟩
      · rw [if_neg c1]
        by_cases c2 : m < 12
        · exact ⟨y, m + 1, 1, by rw [if_pos c2]⟩
        · rw [if_neg c2]
          by_cases c3 : y < 9999
          · exact ⟨y + 1, 1, 1, by rw [if_pos c3]⟩
          · exfalso
            apply hne
            have hy : y = 9999 := by omega
            have hm12 : m = 12 := by omega
            have hdim : daysInMonth y m = 31 := by rw [hy, hm12]; decide
            have hd31 : d = 31 := by omega
            rw [hy, hm12, hd31]
    obtain ⟨y2, m2, d2, ha⟩ := ha
    refine ⟨y2, m2, d2, ha, ?_⟩
    simp only [normalize_datetime, hm, if_pos h24]
    rw [if_pos ⟨hd, hmi⟩, ha]

/-- C2 (witness): the hour-24 rollover on `"15-03-2024 24:00"` yields the
instant `2024-03-16 00:00:00`, and an ordinary hour is kept literally. -/
theorem normalize_valid_instants_witness :
    normalize_datetime ("15-03-2024 24:00".data) =
      some ("2024-03-16 00:00:00".data) ∧
    normalize_datetime ("14-03-2024 09:05".data) =
      some ("2024-03-14 09:05:00".data) := by
  constructor
  · have h := (normalize_valid_instants ("15-03-2024 24:00".data) 15 3 2024 24 0
      (by decide) (by decide) (by decide)).2 rfl (by decide)
    obtain ⟨y2, m2, d2, ha, hn⟩ := h
    have ha2 : addOneDay 2024 3 15 = some (2024, 3, 16) := by decide
    rw [ha] at ha2
    have e := Option.some.inj ha2
    have e1 : y2 = 2024 := congrArg Prod.fst e
    have e2 : m2 = 3 := congrArg (fun p => p.2.1) e
    have e3 : d2 = 16 := congrArg (fun p => p.2.2) e
    subst e1; subst e2; subst e3
    exact hn.trans (by decide)
  · exact (normalize_valid_instants ("14-03-2024 09:05".data) 14 3 2024 9 5
      (by decide) (by decide) (by decide)).1 (by decide)

/-- C3 (counterexample). `"15-03-2024 10:00\n"` does not match the exact
`DD-MM-YYYY HH:MM` pattern (it carries a trailing newline), yet
normalization returns a timestamp rather than a failure signal: the `$`
anchor of Python's `re` also matches just before a trailing newline. -/
theorem normalize_trailing_newline_cex :
    matchDTExact ("15-03-2024 10:00\n".data) = none ∧
    normalize_datetime ("15-03-2024 10:00\n".data) =
      some ("2024-03-15 10:00:00".data) := by decide

/-- C3 (amended). Normalization returns the failure signal `None` whenever
the input fails the code's anchored pattern (which accepts the exact
`DD-MM-YYYY HH:MM` shape, optionally followed by one trailing newline), and
also whenever the matched numeric components do not form a valid calendar
date; it never returns a guessed timestamp in those cases, and being a total
function it raises no exception. -/
theorem normalize_rejections :
    (∀ s, reMatchDT s = none → normalize_datetime s = none) ∧
    (∀ s d m y h mi, reMatchDT s = some (d, m, y, h, mi) →
      pyDateOK y m d = false → normalize_datetime s = none) := by
  constructor
  · intro s hs; simp [normalize_datetime, hs]
  · intro s d m y h mi hm hd
    simp only [normalize_datetime, hm]
    by_cases h24 : h = 24
    · simp [h24, hd]
    · simp [h24, hd]

/-- C3 (witness): a reordered date and an invalid calendar date both yield
the failure signal. -/
theorem normalize_rejections_witness :
    normalize_datetime ("2024-03-15 10:00".data) = none ∧
    normalize_datetime ("31-02-2024 10:00".data) = none :=
  ⟨normalize_rejections.1 _ (by decide),
   normalize_rejections.2 _ 31 2 2024 10 0 (by decide) (by decide)⟩

/-! ## JSON values and row classification -/

/-- A JSON value appearing as a field of a report row.  Lists and objects
are collapsed into one constructor `jcomposite`: the pipeline only ever
renders such values as text (where their rendering can never match the
timestamp pattern) or passes them to `float(...)` (which raises `TypeError`,
turned into a null by the surrounding handler), so their contents never
influence the result. -/
inductive JVal where
  | jstr (s : Str)
  | jnum (v : Dec)
  | jbool (b : Bool)
  | jnull
  | jcomposite
deriving DecidableEq, Repr

/-- Decimal rendering of a `Dec` (digits, optional sign and point). -/
def decRender (v : Dec) : Str :=
  let ds := padNum (v.scale + 1) v.num.natAbs
  let ip := ds.take (ds.length - v.scale)
  let fp := ds.drop (ds.length - v.scale)
  (if v.num < 0 then ['-'] else []) ++ (if v.scale = 0 then ip else ip ++ '.' :: fp)

/-- Python `str(...)` of a row field value.  Composite values render to a
placeholder; like every rendering of a non-string value it contains neither
a space nor a colon, so the timestamp pattern can never match it and row
classification is unaffected by the choice. -/
def pyStr : JVal → Str
  | .jstr s => s
  | .jnull => "None".data
  | .jbool true => "True".data
  | .jbool false => "False".data
  | .jnum v => decRender v
  | .jcomposite => "[...]".data

/-- One report row: a JSON object, i.e. an ordered association list from
field names to values (keys are distinct in a parsed JSON object). -/
abbrev Row := List (Str × JVal)

/-- Python `row.get(key, dflt)`. -/
def rowGetD : Row → Str → JVal → JVal
  | [], _, dflt => dflt
  | kv :: rest, key, dflt => if kv.1 = key then kv.2 else rowGetD rest key dflt

/-- The text the classifier inspects: `str(row.get('datetime', ''))`. -/
def datetimeText (row : Row) : Str := pyStr (rowGetD row ("datetime".data) (.jstr []))

/-- The summary-marker substrings of `is_valid_measurement_row`. -/
def summaryKeywords : List Str :=
  ["Summary", "Minimum", "MinDate", "MinTime", "Maximum", "MaxDate", "MaxTime",
   "Avg", "Num", "DataPrecent", "STD", "Count"].map String.data

/-- Python's substring test `needle in hay`. -/
def isSubstring (needle hay : Str) : Bool :=
  hay.tails.any (fun t => needle.isPrefixOf t)

/-- `is_valid_measurement_row` from `load_to_duckdb.py`: the timestamp
field's text must contain no summary marker and must match the anchored
`DD-MM-YYYY HH:MM` pattern. -/
def is_valid_measurement_row (row : Row) : Bool :=
  (!(summaryKeywords.any (fun kw => isSubstring kw (datetimeText row)))) &&
    (reMatchDT (datetimeText row)).isSome

example : is_valid_measurement_row [(("datetime".data), .jstr ("Summary".data))] = false := by
  decide

example :
    is_valid_measurement_row [(("datetime".data), .jstr ("15-03-2024 10:30".data))] = true := by
  decide

/-- A list ending in `c` is its `dropLast` with `c` appended. -/
theorem eq_dropLast_concat :
    ∀ (s : Str) (c : Char), s.getLast? = some c → s = s.dropLast ++ [c]
  | [], c, h => by simp at h
  | [a], c, h => by
    simp only [List.getLast?_singleton, Option.some.injEq] at h
    rw [h]; rfl
  | a :: b :: t, c, h => by
    have ih := eq_dropLast_concat (b :: t) c (by rwa [List.getLast?_cons_cons] at h)
    rw [show (a :: b :: t).dropLast = a :: (b :: t).dropLast from rfl,
      List.cons_append, ← ih]

/-- The code's anchored match succeeds exactly on a core string accepted by
the exact pattern, possibly carrying one trailing newline. -/
theorem reMatchDT_isSome_iff (s : Str) :
    (reMatchDT s).isSome = true ↔
      ∃ core, (s = core ∨ s = core ++ ['\n']) ∧ (matchDTExact core).isSome = true := by
  constructor
  · intro h
    unfold reMatchDT at h
    cases he : matchDTExact s with
    | some r => exact ⟨s, Or.inl rfl, by rw [he]; rfl⟩
    | none =>
      rw [he] at h
      by_cases hl : s.getLast? = some '\n'
      · rw [if_pos hl] at h
        exact ⟨s.dropLast, Or.inr (eq_dropLast_concat s '\n' hl), h⟩
      · rw [if_neg hl] at h; exact absurd h (by simp)
  · rintro ⟨core, hc | hc, hsome⟩
    · obtain ⟨r, hr⟩ := Option.isSome_iff_exists.mp hsome
      rw [hc]
      unfold reMatchDT
      rw [hr]
      rfl
    · rw [hc]
      unfold reMatchDT
      cases he : matchDTExact (core ++ ['\n']) with
      | some r => rfl
      | none =>
        rw [List.getLast?_concat, if_pos rfl, List.dropLast_concat]
        exact hsome

/-- C7 (counterexample). A row whose timestamp text is the valid stamp
followed by a newline is accepted by the classifier although the text does
not match the exact two-digit-day … two-digit-minute pattern. -/
theorem classifier_newline_cex :
    is_valid_measurement_row
      [(("datetime".data), .jstr ("15-03-2024 10:30\n".data))] = true ∧
    matchDTExact ("15-03-2024 10:30\n".data) = none := by decide

/-- C7 (amended). The classifier accepts a row if and only if (a) the
timestamp field's text contains none of the summary-marker substrings and
(b) that text is a string matching the exact `DD-MM-YYYY HH:MM` pattern,
optionally followed by one trailing newline (Python's `$` anchor); a row
failing either check is discarded (the classifier is a pure total
function). -/
theorem classifier_characterization (row : Row) :
    is_valid_measurement_row row = true ↔
      ((∀ kw ∈ summaryKeywords, isSubstring kw (datetimeText row) = false) ∧
       ∃ core, (datetimeText row = core ∨ datetimeText row = core ++ ['\n']) ∧
         (matchDTExact core).isSome = true) := by
  unfold is_valid_measurement_row
  rw [Bool.and_eq_true, Bool.not_eq_true', reMatchDT_isSome_iff]
  constructor
  · rintro ⟨ha, hb⟩
    refine ⟨?_, hb⟩
    intro kw hkw
    by_contra hne
    have : isSubstring kw (datetimeText row) = true := by
      cases hv : isSubstring kw (datetimeText row) with
      | true => rfl
      | false => exact absurd hv hne
    exact absurd ha (by simp [List.any_eq_true]; exact ⟨kw, hkw, this⟩)
  · rintro ⟨ha, hb⟩
    refine ⟨?_, hb⟩
    cases hv : summaryKeywords.any (fun kw => isSubstring kw (datetimeText row)) with
    | false => rfl
    | true =>
      obtain ⟨kw, hkw, hsub⟩ := List.any_eq_true.mp hv
      rw [ha kw hkw] at hsub
      exact absurd hsub (by simp)

/-- C7 (witness): the characterization applied to a concrete accepted row. -/
theorem classifier_characterization_witness :
    is_valid_measurement_row
      [(("datetime".data), .jstr ("01-01-2024 08:00".data))] = true :=
  (classifier_characterization _).mpr
    ⟨by decide, ("01-01-2024 08:00".data), Or.inl (by decide), by decide⟩

/-! ## Value coercion -/

/-- The result of a successful Python `float(...)` conversion: a finite
value (kept as an exact decimal; magnitudes past the IEEE range are kept
exact rather than rounded to infinity/zero, as the pipeline only stores
values and never computes with them), positive or negative infinity, or
NaN (whose sign bit is immaterial to the pipeline). -/
inductive PyFloat where
  | finite (v : Dec)
  | inf (neg : Bool)
  | nan
deriving DecidableEq, Repr

/-- Exponent suffix of a Python float literal, applied to a parsed
mantissa. -/
def parseExponent (mant : Dec) (s : Str) : Option Dec :=
  let (esgn, s1) : Bool × Str :=
    match s with
    | '-' :: rest => (true, rest)
    | '+' :: rest => (false, rest)
    | _ => (false, s)
  let ds := s1.takeWhile Char.isDigit
  let r := s1.dropWhile Char.isDigit
  if ds = [] ∨ r ≠ [] then none
  else
    let e := digitsVal ds
    if esgn then some ⟨mant.num, mant.scale + e⟩
    else if e ≤ mant.scale then some ⟨mant.num, mant.scale - e⟩
    else some ⟨mant.num * (10 : Int) ^ (e - mant.scale), 0⟩

/-- The decimal-literal core of Python's `float(...)` (after whitespace
stripping and underscore removal): optional sign, digits with an optional
point (at least one digit overall), optional exponent.  Returns the exact
decimal value, or `none` for any other text. -/
def parseDecimal (s : Str) : Option Dec :=
  let (sgn, s1) : Bool × Str :=
    match s with
    | '-' :: rest => (true, rest)
    | '+' :: rest => (false, rest)
    | _ => (false, s)
  let ip := s1.takeWhile Char.isDigit
  let r1 := s1.dropWhile Char.isDigit
  let (fp, r2) : Str × Str :=
    match r1 with
    | '.' :: rest => (rest.takeWhile Char.isDigit, rest.dropWhile Char.isDigit)
    | _ => ([], r1)
  if ip = [] ∧ fp = [] then none
  else
    let mag : Nat := digitsVal ip * 10 ^ fp.length + digitsVal fp
    let mant : Dec := ⟨if sgn then -(mag : Int) else (mag : Int), fp.length⟩
    match r2 with
    | [] => some mant
    | 'e' :: rest => parseExponent mant rest
    | 'E' :: rest => parseExponent mant rest
    | _ => none

/-- The characters `float(...)` strips from both ends of its input (the
ASCII members of Python's whitespace set). -/
def isPySpace (c : Char) : Bool :=
  decide (c = ' ' ∨ c = '\t' ∨ c = '\n' ∨ c = '\r' ∨ c = '\x0b' ∨ c = '\x0c' ∨
    c = '\x1c' ∨ c = '\x1d' ∨ c = '\x1e' ∨ c = '\x1f')

/-- Strip leading and trailing whitespace, as `float(...)` does. -/
def stripWS (s : Str) : Str :=
  ((s.dropWhile isPySpace).reverse.dropWhile isPySpace).reverse

/-- PEP 515 validation (CPython's underscore check): every underscore must
be immediately preceded and followed by a digit.  The boolean argument
records whether the previous character was a digit. -/
def underscoresOKAux : Bool → Str → Bool
  | _, [] => true
  | prevDigit, '_' :: rest =>
    prevDigit &&
      (match rest with
       | r :: _ => r.isDigit
       | [] => false) &&
      underscoresOKAux false rest
  | _, c :: rest => underscoresOKAux c.isDigit rest

def underscoresOK (s : Str) : Bool := underscoresOKAux false s

/-- Python's `float(str)` on the ASCII fragment: strip surrounding
whitespace; validate and remove PEP 515 underscore separators; accept the
case-insensitive word forms `inf`/`infinity`/`nan` after an optional sign;
otherwise parse a decimal literal.  `none` models the `ValueError`. -/
def parseFloat (s : Str) : Option PyFloat :=
  let t := stripWS s
  if underscoresOK t then
    let u := t.filter (fun c => decide (c ≠ '_'))
    let (neg, body) : Bool × Str :=
      match u with
      | '-' :: r => (true, r)
      | '+' :: r => (false, r)
      | _ => (false, u)
    let low := body.map Char.toLower
    if low = ("inf".data) ∨ low = ("infinity".data) then some (.inf neg)
    else if low = ("nan".data) then some (.nan)
    else (parseDecimal u).map PyFloat.finite
  else none

example : parseFloat (" 12.5 ".data) = some (.finite ⟨125, 1⟩) := by decide
example : parseFloat ("1_000".data) = some (.finite ⟨1000, 0⟩) := by decide
example : parseFloat ("1_0.2_5e1_0".data) = some (.finite ⟨102500000000, 0⟩) := by decide
example : parseFloat ("-Infinity".data) = some (.inf true) := by decide
example : parseFloat ("nAn".data) = some (.nan) := by decide
example : parseFloat ("_1".data) = none := by decide
example : parseFloat ("1_".data) = none := by decide
example : parseFloat ("1__0".data) = none := by decide
example : parseFloat ("1_.5".data) = none := by decide
example : parseFloat ("in_f".data) = none := by decide
example : parseFloat ("1e".data) = none := by decide
example : parseFloat ("".data) = none := by decide

/-- The missing-value sentinel strings of the extractor (the `None` member
of the Python list is the `jnull` case of `coerceValue`). -/
def missingTokens : List Str :=
  ["", "-", "----", "N/A", "NaN"].map String.data

/-- Value coercion of the record extractor: sentinel tokens (and JSON
`null`) become null, other values go through `float(...)`, and a
`ValueError`/`TypeError` there becomes null as well. -/
def coerceValue : JVal → Option PyFloat
  | .jnull => none
  | .jstr s => if s ∈ missingTokens then none else parseFloat s
  | .jnum v => some (.finite v)
  | .jbool b => some (.finite ⟨if b then 1 else 0, 0⟩)
  | .jcomposite => none

/-- C8. Value coercion sends every sentinel token (absent/`None`, the empty
string, `"-"`, `"----"`, `"N/A"`, `"NaN"`) to null, parses numeric text
(`"12.5"` denotes 25/2, whitespace-padded and underscore-separated numbers
and the `inf`/`nan` word forms are numeric too), and sends unparseable
text such as `"abc"` to null rather than an error; being a total function
into `Option`, it never raises. -/
theorem coerce_sentinels_and_numbers :
    (∀ s, parseFloat s = none → coerceValue (.jstr s) = none) ∧
    (∀ s, s ∉ missingTokens → coerceValue (.jstr s) = parseFloat s) ∧
    coerceValue .jnull = none ∧
    coerceValue (.jstr ("".data)) = none ∧
    coerceValue (.jstr ("-".data)) = none ∧
    coerceValue (.jstr ("----".data)) = none ∧
    coerceValue (.jstr ("N/A".data)) = none ∧
    coerceValue (.jstr ("NaN".data)) = none ∧
    (∃ v, coerceValue (.jstr ("12.5".data)) = some (.finite v) ∧ v.toRat = 25 / 2) ∧
    coerceValue (.jstr (" 12.5".data)) = some (.finite ⟨125, 1⟩) ∧
    coerceValue (.jstr ("1_000".data)) = some (.finite ⟨1000, 0⟩) ∧
    coerceValue (.jstr ("inf".data)) = some (.inf false) ∧
    coerceValue (.jstr ("nan".data)) = some (.nan) ∧
    coerceValue (.jstr ("abc".data)) = none := by
  refine ⟨?_, ?_, by decide, by decide, by decide, by decide, by decide, by decide,
    ⟨⟨125, 1⟩, by decide, ?_⟩, by decide, by decide, by decide, by decide, by decide⟩
  · intro s h
    simp only [coerceValue]
    by_cases hs : s ∈ missingTokens
    · rw [if_pos hs]
    · rw [if_neg hs]; exact h
  · intro s h
    simp only [coerceValue]
    rw [if_neg h]
  · norm_num [Dec.toRat]

/-- C8 (witness): the quantified parts applied at concrete strings. -/
theorem coerce_sentinels_and_numbers_witness :
    coerceValue (.jstr ("zz9".data)) = none ∧
    coerceValue (.jstr ("23.4".data)) = parseFloat ("23.4".data) :=
  ⟨coerce_sentinels_and_numbers.1 _ (by decide),
   coerce_sentinels_and_numbers.2.1 _ (by decide)⟩

/-! ## Record extraction (`parse_json_to_polars`) -/

/-- Lookup in an ordered association list (Python dict access). -/
def assocLookup {α : Type} : List (Str × α) → Str → Option α
  | [], _ => none
  | kv :: rest, k => if kv.1 = k then some kv.2 else assocLookup rest k

/-- Python `key in dict`. -/
def hasKey {α : Type} (l : List (Str × α)) (k : Str) : Bool :=
  (assocLookup l k).isSome

/-- One entry of the code map: the optional `label` and `unit` fields of
the configuration record for a monitor code. -/
structure CMEntry where
  label : Option Str
  unit : Option Str
deriving DecidableEq, Repr

/-- The flattened code map produced by `load_code_map`. -/
abbrev CodeMap := List (Str × CMEntry)

/-- A monitor registry entry: `{'code': ..., 'name': ..., 'unit': ...}`. -/
structure MonitorInfo where
  code : Str
  name : Str
  unit : Str
deriving DecidableEq, Repr

/-- The per-file monitor registry `monitors_dict` (insertion-ordered). -/
abbrev Monitors := List (Str × MonitorInfo)

/-- One extracted measurement tuple. -/
structure Meas where
  station_id : Nat
  monitor_code : Str
  timestamp : Str
  value : Option PyFloat
deriving DecidableEq, Repr

/-- Registry entry for a code: name and unit from the code map, falling
back to the raw code and the empty unit. -/
def monitorInfoFor (cm : CodeMap) (code : Str) : MonitorInfo :=
  match assocLookup cm code with
  | some e => ⟨code, e.label.getD code, e.unit.getD []⟩
  | none => ⟨code, code, []⟩

/-- Register a monitor code in the per-file registry if it is new. -/
def registerMonitor (cm : CodeMap) (mons : Monitors) (code : Str) : Monitors :=
  if hasKey mons code then mons else mons ++ [(code, monitorInfoFor cm code)]

/-- The inner loop of the extractor over the fields of one row: every field
whose key has the `S_` prefix (and is not the timestamp field) registers its
monitor and emits one measurement tuple. -/
def extractFields (cm : CodeMap) (sid : Nat) (ts : Str) :
    List (Str × JVal) → List Meas × Monitors → List Meas × Monitors
  | [], acc => acc
  | (key, v) :: rest, acc =>
    if (("S_".data).isPrefixOf key ∧ key ≠ ("datetime".data)) then
      extractFields cm sid ts rest
        (acc.1 ++ [⟨sid, key, ts, coerceValue v⟩], registerMonitor cm acc.2 key)
    else extractFields cm sid ts rest acc

/-- The per-row step of the extractor: normalize the timestamp (a non-string
timestamp raises `TypeError` inside `normalize_datetime`'s handler, giving
`None`); skip the row on failure, else extract all monitor-coded fields. -/
def extractRow (cm : CodeMap) (sid : Nat) (acc : List Meas × Monitors) (row : Row) :
    List Meas × Monitors :=
  let ts? := match rowGetD row ("datetime".data) (.jstr []) with
    | .jstr s => normalize_datetime s
    | _ => none
  match ts? with
  | none => acc
  | some ts => extractFields cm sid ts row acc

/-- An element of the top-level JSON array: a JSON object (a row), or any
other value, on which the classifier's `row.get` raises `AttributeError`. -/
inductive JItem where
  | record (row : Row)
  | nonRecord
deriving DecidableEq, Repr

/-- A field value of a top-level JSON object: a list of items, or anything
else. -/
inductive JDocField where
  | items (elems : List JItem)
  | nonItems
deriving DecidableEq, Repr

/-- The top-level JSON document of one input file. -/
inductive JDoc where
  | items (elems : List JItem)
  | obj (fields : List (Str × JDocField))
  | other
deriving DecidableEq, Repr

/-- The conventional wrapper keys probed when the document is an object. -/
def dataKeys : List Str := ["data", "Data", "records", "Records"].map String.data

/-- Probe the wrapper keys in order for a list-valued field. -/
def findDataList (fields : List (Str × JDocField)) : List Str → Option (List JItem)
  | [] => none
  | k :: rest =>
    match assocLookup fields k with
    | some (.items elems) => some elems
    | _ => findDataList fields rest

/-- Resolve the top-level document to its list of row items: a top-level
array is used directly, an object is searched under the wrapper keys, and
anything else yields no rows (the file is treated as empty). -/
def locateRows : JDoc → Option (List JItem)
  | .items elems => some elems
  | .obj fields => findDataList fields dataKeys
  | .other => none

/-- The classification pass touches every item; a non-object item raises
(`AttributeError` in `row.get`), modelled as `none`. -/
def itemsToRows : List JItem → Option (List Row)
  | [] => some []
  | .record r :: rest => (itemsToRows rest).map (fun rs => r :: rs)
  | .nonRecord :: _ => none

/-- `parse_json_to_polars` from `load_to_duckdb.py`: locate the rows,
classify them, and fold the extractor over the valid ones.  `.error`
models the uncaught exception on a non-object row item. -/
def parse_json_to_polars (j : JDoc) (cm : CodeMap) (sid : Nat) :
    Except Unit (List Meas × Monitors) :=
  match locateRows j with
  | none => .ok ([], [])
  | some elems =>
    match itemsToRows elems with
    | none => .error ()
    | some rows =>
      .ok ((rows.filter is_valid_measurement_row).foldl (extractRow cm sid) ([], []))

/-- Lookup distributes over list append. -/
theorem assocLookup_append {α : Type} (l l' : List (Str × α)) (k : Str) :
    assocLookup (l ++ l') k =
      match assocLookup l k with
      | some v => some v
      | none => assocLookup l' k := by
  induction l with
  | nil => rfl
  | cons kv rest ih =>
    by_cases h : kv.1 = k
    · simp only [List.cons_append, assocLookup, if_pos h]
    · simp only [List.cons_append, assocLookup, if_neg h]
      exact ih

/-- Registering a monitor preserves every key already present. -/
theorem registerMonitor_hasKey_mono (cm : CodeMap) (mons : Monitors) (code k : Str)
    (h : hasKey mons k = true) :
    hasKey (registerMonitor cm mons code) k = true := by
  unfold registerMonitor
  by_cases hc : hasKey mons code = true
  · rw [if_pos hc]; exact h
  · rw [if_neg hc]
    unfold hasKey at h ⊢
    rw [assocLookup_append]
    obtain ⟨v, hv⟩ := Option.isSome_iff_exists.mp h
    rw [hv]
    rfl

/-- Registering a monitor makes its key present. -/
theorem registerMonitor_self (cm : CodeMap) (mons : Monitors) (code : Str) :
    hasKey (registerMonitor cm mons code) code = true := by
  unfold registerMonitor
  by_cases hc : hasKey mons code = true
  · rw [if_pos hc]; exact hc
  · rw [if_neg hc]
    unfold hasKey at hc ⊢
    rw [assocLookup_append]
    cases hv : assocLookup mons code with
    | some v => rw [hv] at hc; exact absurd rfl hc
    | none => simp [assocLookup]

/-- The extractor invariant: every emitted tuple's monitor code is a key of
the registry carried alongside it. -/
def codesRegistered (p : List Meas × Monitors) : Prop :=
  ∀ m ∈ p.1, hasKey p.2 m.monitor_code = true

theorem extractFields_codesRegistered (cm : CodeMap) (sid : Nat) (ts : Str) :
    ∀ (fields : List (Str × JVal)) (acc : List Meas × Monitors),
      codesRegistered acc → codesRegistered (extractFields cm sid ts fields acc)
  | [], acc, h => h
  | (key, v) :: rest, acc, h => by
    unfold extractFields
    by_cases hc : (("S_".data).isPrefixOf key ∧ key ≠ ("datetime".data))
    · rw [if_pos hc]
      apply extractFields_codesRegistered cm sid ts rest
      intro m hm
      rcases List.mem_append.mp hm with hm | hm
      · exact registerMonitor_hasKey_mono cm acc.2 key m.monitor_code (h m hm)
      · have : m = ⟨sid, key, ts, coerceValue v⟩ := List.mem_singleton.mp hm
        rw [this]
        exact registerMonitor_self cm acc.2 key
    · rw [if_neg hc]
      exact extractFields_codesRegistered cm sid ts rest acc h

theorem extractRow_codesRegistered (cm : CodeMap) (sid : Nat)
    (acc : List Meas × Monitors) (row : Row) (h : codesRegistered acc) :
    codesRegistered (extractRow cm sid acc row) := by
  unfold extractRow
  cases hts : (match rowGetD row ("datetime".data) (.jstr []) with
    | .jstr s => normalize_datetime s
    | _ => none) with
  | none => simpa [hts] using h
  | some ts =>
    simp only [hts]
    exact extractFields_codesRegistered cm sid ts row acc h

theorem foldl_extractRow_codesRegistered (cm : CodeMap) (sid : Nat) :
    ∀ (rows : List Row) (acc : List Meas × Monitors), codesRegistered acc →
      codesRegistered (rows.foldl (extractRow cm sid) acc)
  | [], _, h => h
  | row :: rest, acc, h =>
    foldl_extractRow_codesRegistered cm sid rest (extractRow cm sid acc row)
      (extractRow_codesRegistered cm sid acc row h)

/-- C9. For every JSON document, code map and station identifier, every
measurement tuple emitted by the record extractor carries a monitor code
that is a key of the monitor registry returned alongside it. -/
theorem extractor_registers_monitors (j : JDoc) (cm : CodeMap) (sid : Nat)
    (ms : List Meas) (mons : Monitors)
    (hp : parse_json_to_polars j cm sid = .ok (ms, mons)) :
    ∀ m ∈ ms, hasKey mons m.monitor_code = true := by
  cases hl : locateRows j with
  | none =>
    simp only [parse_json_to_polars, hl, Except.ok.injEq, Prod.mk.injEq] at hp
    obtain ⟨h1, h2⟩ := hp
    subst h1
    intro m hm
    exact absurd hm (List.not_mem_nil m)
  | some elems =>
    cases hi : itemsToRows elems with
    | none =>
      simp only [parse_json_to_polars, hl, hi] at hp
      exact absurd hp (by simp)
    | some rows =>
      simp only [parse_json_to_polars, hl, hi, Except.ok.injEq] at hp
      have key := foldl_extractRow_codesRegistered cm sid
        (rows.filter is_valid_measurement_row) ([], [])
        (by intro m hm; exact absurd hm (List.not_mem_nil m))
      intro m hm
      have hms : ms = ((rows.filter is_valid_measurement_row).foldl
          (extractRow cm sid) ([], [])).1 := by rw [hp]
      have hmons : mons = ((rows.filter is_valid_measurement_row).foldl
          (extractRow cm sid) ([], [])).2 := by rw [hp]
      rw [hms] at hm
      rw [hmons]
      exact key m hm

/-- A two-row demonstration file: one real reading and one summary row. -/
def demoDoc : JDoc := .items
  [.record [(("datetime".data), .jstr ("01-01-2024 08:00".data)),
            (("S_PM25".data), .jstr ("23.4".data))],
   .record [(("datetime".data), .jstr ("Summary".data)),
            (("S_PM25".data), .jstr ("Avg".data))]]

def demoMeas : Meas :=
  ⟨1, "S_PM25".data, "2024-01-01 08:00:00".data, some (.finite ⟨234, 1⟩)⟩

def demoMons : Monitors := [(("S_PM25".data), ⟨"S_PM25".data, "S_PM25".data, []⟩)]

/-- C9 (witness): the invariant applied to the demonstration file, whose
summary row contributes nothing and whose reading emits one tuple. -/
theorem extractor_registers_monitors_witness :
    hasKey demoMons ("S_PM25".data) = true :=
  extractor_registers_monitors demoDoc [] 1 [demoMeas] demoMons rfl
    demoMeas (by decide)

/-! ## Persistence layer (`create_database` schema and `insert_data_duckdb`) -/

/-- The composite natural key of the unique index
`idx_measurements_unique` on `measurements`. -/
structure MKey where
  station_id : Nat
  monitor_code : Str
  timestamp : Str
  report_type : Str
deriving DecidableEq, Repr

/-- One stored row of the `measurements` table. -/
structure MeasRow where
  id : Nat
  key : MKey
  value : Option PyFloat
  granularity : Int
  created_at : Nat
deriving DecidableEq, Repr

/-- Whether the table holds a row with the given composite key. -/
def hasMKey (tbl : List MeasRow) (k : MKey) : Bool :=
  tbl.any (fun r => decide (r.key = k))

/-- The rows of the table matching a composite key. -/
def rowsFor (tbl : List MeasRow) (k : MKey) : List MeasRow :=
  tbl.filter (fun r => decide (r.key = k))

/-- Number of stored rows matching a composite key. -/
def countKey (tbl : List MeasRow) (k : MKey) : Nat := (rowsFor tbl k).length

/-- `INSERT ... SELECT nextval('measurement_seq'), ... ON CONFLICT
(station_id, monitor_code, timestamp, report_type) DO UPDATE SET value,
granularity_minutes, created_at`, for one source row: the sequence value is
computed for the candidate row, then a key conflict turns the insert into
an update of the conflicting row (id and key untouched). -/
def upsertMeasurement (st : List MeasRow × Nat) (k : MKey) (v : Option PyFloat)
    (g : Int) (t : Nat) : List MeasRow × Nat :=
  if hasMKey st.1 k then
    (st.1.map (fun r => if r.key = k then
        { r with value := v, granularity := g, created_at := t } else r),
     st.2 + 1)
  else (st.1 ++ [⟨st.2, k, v, g, t⟩], st.2 + 1)

/-- The batch insert of one file's measurement dataframe, row by row (the
engine's set-oriented statement is defined exactly when the batch has no
two rows conflicting with the same target, i.e. when its keys are
distinct; under that hypothesis the row-by-row fold agrees with it). -/
def insertMeasBatch (b : List (MKey × Option PyFloat)) (g : Int) (t : Nat)
    (st : List MeasRow × Nat) : List MeasRow × Nat :=
  b.foldl (fun st kv => upsertMeasurement st kv.1 kv.2 g t) st

/-- A mapping that does not change keys does not change per-key row counts
or which rows match a key, beyond applying the mapping. -/
theorem rowsFor_map_keyFixed (f : MeasRow → MeasRow)
    (hf : ∀ r, (f r).key = r.key) (tbl : List MeasRow) (k : MKey) :
    rowsFor (tbl.map f) k = (rowsFor tbl k).map f := by
  induction tbl with
  | nil => rfl
  | cons r rest ih =>
    simp only [List.map_cons, rowsFor, List.filter_cons] at ih ⊢
    rw [hf r]
    by_cases h : r.key = k
    · simp [h, ih]
    · simp [h, ih]

/-- Updating rows in place never changes any per-key count; appending a row
adds one to its key's count only. -/
theorem countKey_upsert (st : List MeasRow × Nat) (k : MKey) (v : Option PyFloat)
    (g : Int) (t : Nat) (j : MKey) :
    countKey (upsertMeasurement st k v g t).1 j =
      countKey st.1 j + (if hasMKey st.1 k = false ∧ j = k then 1 else 0) := by
  unfold upsertMeasurement
  by_cases h : hasMKey st.1 k = true
  · rw [if_pos h]
    have hcond : ¬(hasMKey st.1 k = false ∧ j = k) := fun hc => by
      rw [h] at hc; exact absurd hc.1 (by simp)
    rw [if_neg hcond, Nat.add_zero]
    unfold countKey
    rw [rowsFor_map_keyFixed _ (fun r => by by_cases hr : r.key = k <;> simp [hr])]
    exact List.length_map _ _
  · have h' : hasMKey st.1 k = false := by
      cases hv : hasMKey st.1 k with
      | true => exact absurd hv h
      | false => rfl
    rw [if_neg h]
    unfold countKey rowsFor
    rw [List.filter_append, List.length_append]
    by_cases hj : j = k
    · rw [if_pos ⟨h', hj⟩]
      simp [List.filter_cons, hj.symm]
    · rw [if_neg (fun hc => hj hc.2)]
      have : (⟨st.2, k, v, g, t⟩ : MeasRow).key ≠ j := fun e => hj (e.symm)
      simp [List.filter_cons, decide_eq_false this]

/-- A key present before an upsert is present after it. -/
theorem hasMKey_upsert_mono (st : List MeasRow × Nat) (k : MKey) (v : Option PyFloat)
    (g : Int) (t : Nat) (j : MKey) (h : 0 < countKey st.1 j) :
    0 < countKey (upsertMeasurement st k v g t).1 j := by
  rw [countKey_upsert]
  omega

/-- After an upsert its own key is present. -/
theorem hasMKey_upsert_self (st : List MeasRow × Nat) (k : MKey) (v : Option PyFloat)
    (g : Int) (t : Nat) :
    0 < countKey (upsertMeasurement st k v g t).1 k := by
  rw [countKey_upsert]
  by_cases h : hasMKey st.1 k = true
  · have : 0 < countKey st.1 k := by
      obtain ⟨r, hr, hrk⟩ := List.any_eq_true.mp h
      unfold countKey rowsFor
      have : r ∈ st.1.filter (fun r => decide (r.key = k)) :=
        List.mem_filter.mpr ⟨hr, hrk⟩
      exact List.length_pos.mpr (fun e => by rw [e] at this; exact absurd this (List.not_mem_nil r))
    omega
  · have h' : hasMKey st.1 k = false := by
      cases hv : hasMKey st.1 k with
      | true => exact absurd hv h
      | false => rfl
    rw [if_pos ⟨h', rfl⟩]
    omega

/-- Presence expressed through the membership test used by the code. -/
theorem hasMKey_of_countKey_pos (tbl : List MeasRow) (k : MKey)
    (h : 0 < countKey tbl k) : hasMKey tbl k = true := by
  unfold countKey rowsFor at h
  obtain ⟨r, hr⟩ := List.exists_mem_of_length_pos h
  have := List.mem_filter.mp hr
  exact List.any_eq_true.mpr ⟨r, this.1, this.2⟩

/-- Every key of the batch is present after the batch insert. -/
theorem insertMeasBatch_present (g : Int) (t : Nat) :
    ∀ (b : List (MKey × Option PyFloat)) (st : List MeasRow × Nat) (k : MKey),
      ((∃ v, (k, v) ∈ b) ∨ 0 < countKey st.1 k) →
      0 < countKey (insertMeasBatch b g t st).1 k
  | [], st, k, h => by
    rcases h with ⟨v, hv⟩ | h
    · exact absurd hv (List.not_mem_nil _)
    · exact h
  | (k0, v0) :: rest, st, k, h => by
    apply insertMeasBatch_present g t rest
    rcases h with ⟨v, hv⟩ | h
    · rcases List.mem_cons.mp hv with he | hm
      · right
        have hk : k = k0 := congrArg Prod.fst he
        rw [hk]
        exact hasMKey_upsert_self st k0 v0 g t
      · exact Or.inl ⟨v, hm⟩
    · exact Or.inr (hasMKey_upsert_mono st k0 v0 g t k h)

/-- When every key of the batch is already present, the batch insert only
updates rows in place and changes no per-key count. -/
theorem insertMeasBatch_count_preserved (g : Int) (t : Nat) :
    ∀ (b : List (MKey × Option PyFloat)) (st : List MeasRow × Nat),
      (∀ p ∈ b, 0 < countKey st.1 p.1) →
      ∀ j, countKey (insertMeasBatch b g t st).1 j = countKey st.1 j
  | [], _, _, _ => rfl
  | (k0, v0) :: rest, st, h, j => by
    have h0 : 0 < countKey st.1 k0 := h (k0, v0) (List.mem_cons_self _ _)
    have hstep : ∀ i, countKey (upsertMeasurement st k0 v0 g t).1 i = countKey st.1 i := by
      intro i
      rw [countKey_upsert]
      have : ¬(hasMKey st.1 k0 = false ∧ i = k0) := fun hc => by
        rw [hasMKey_of_countKey_pos st.1 k0 h0] at hc
        exact absurd hc.1 (by simp)
      rw [if_neg this, Nat.add_zero]
    have ih := insertMeasBatch_count_preserved g t rest (upsertMeasurement st k0 v0 g t)
      (fun p hp => by rw [hstep p.1]; exact h p (List.mem_cons_of_mem _ hp)) j
    calc countKey (insertMeasBatch rest g t (upsertMeasurement st k0 v0 g t)).1 j
        = countKey (upsertMeasurement st k0 v0 g t).1 j := ih
      _ = countKey st.1 j := hstep j

/-- A batch that never mentions a key leaves that key's rows untouched. -/
theorem insertMeasBatch_frame (g : Int) (t : Nat) :
    ∀ (b : List (MKey × Option PyFloat)) (st : List MeasRow × Nat) (k : MKey),
      (∀ p ∈ b, p.1 ≠ k) →
      rowsFor (insertMeasBatch b g t st).1 k = rowsFor st.1 k
  | [], _, _, _ => rfl
  | (k0, v0) :: rest, st, k, h => by
    have hk0 : k0 ≠ k := h (k0, v0) (List.mem_cons_self _ _)
    have ih := insertMeasBatch_frame g t rest (upsertMeasurement st k0 v0 g t) k
      (fun p hp => h p (List.mem_cons_of_mem _ hp))
    rw [show insertMeasBatch ((k0, v0) :: rest) g t st
        = insertMeasBatch rest g t (upsertMeasurement st k0 v0 g t) from rfl, ih]
    unfold upsertMeasurement
    by_cases hp : hasMKey st.1 k0 = true
    · rw [if_pos hp]
      rw [rowsFor_map_keyFixed _ (fun r => by by_cases hr : r.key = k0 <;> simp [hr])]
      have : ∀ r ∈ rowsFor st.1 k,
          (fun r => if r.key = k0 then
            { r with value := v0, granularity := g, created_at := t } else r) r = r := by
        intro r hr
        have hrk : r.key = k := of_decide_eq_true (List.mem_filter.mp hr).2
        have hne : r.key ≠ k0 := fun e => hk0 (by rw [← e, hrk])
        simp [hne]
      rw [List.map_congr_left this, List.map_id']
    · rw [if_neg hp]
      unfold rowsFor
      rw [List.filter_append]
      have : (⟨st.2, k0, v0, g, t⟩ : MeasRow).key ≠ k := hk0
      simp [List.filter_cons, decide_eq_false this]

/-- After one upsert, every row matching its key carries the upserted
value, granularity and timestamp. -/
theorem upsert_sets_fields (st : List MeasRow × Nat) (k : MKey) (v : Option PyFloat)
    (g : Int) (t : Nat) :
    ∀ r ∈ (upsertMeasurement st k v g t).1, r.key = k →
      r.value = v ∧ r.granularity = g ∧ r.created_at = t := by
  intro r hr hrk
  unfold upsertMeasurement at hr
  by_cases hp : hasMKey st.1 k = true
  · rw [if_pos hp] at hr
    obtain ⟨r0, hr0, rfl⟩ := List.mem_map.mp hr
    by_cases hc : r0.key = k
    · rw [if_pos hc]
      exact ⟨rfl, rfl, rfl⟩
    · rw [if_neg hc] at hrk ⊢
      exact absurd hrk hc
  · rw [if_neg hp] at hr
    rcases List.mem_append.mp hr with hm | hm
    · exfalso
      have : hasMKey st.1 k = true := List.any_eq_true.mpr ⟨r, hm, decide_eq_true hrk⟩
      exact hp this
    · have : r = ⟨st.2, k, v, g, t⟩ := List.mem_singleton.mp hm
      rw [this]
      exact ⟨rfl, rfl, rfl⟩

/-- After a batch insert with pairwise-distinct keys, every stored row
whose key appears in the batch carries that batch entry's value together
with the batch granularity and timestamp. -/
theorem insertMeasBatch_values (g : Int) (t : Nat) :
    ∀ (b : List (MKey × Option PyFloat)) (st : List MeasRow × Nat),
      (b.map Prod.fst).Nodup →
      ∀ k v, (k, v) ∈ b → ∀ r ∈ (insertMeasBatch b g t st).1, r.key = k →
        r.value = v ∧ r.granularity = g ∧ r.created_at = t
  | [], _, _, k, v, hv => absurd hv (List.not_mem_nil _)
  | (k0, v0) :: rest, st, hnd, k, v, hv => by
    intro r hr hrk
    have hnd' : (rest.map Prod.fst).Nodup := (List.nodup_cons.mp hnd).2
    rcases List.mem_cons.mp hv with he | hm
    · have hk : k = k0 := congrArg Prod.fst he
      have hvv : v = v0 := congrArg Prod.snd he
      subst hk; subst hvv
      have hnot : ∀ p ∈ rest, p.1 ≠ k := by
        intro p hp he2
        have hmem : p.1 ∈ rest.map Prod.fst := List.mem_map_of_mem Prod.fst hp
        rw [he2] at hmem
        exact (List.nodup_cons.mp hnd).1 hmem
      have hframe := insertMeasBatch_frame g t rest (upsertMeasurement st k v g t) k hnot
      have hr' : r ∈ rowsFor (upsertMeasurement st k v g t).1 k := by
        rw [← hframe]
        exact List.mem_filter.mpr ⟨hr, decide_eq_true hrk⟩
      have := List.mem_filter.mp hr'
      exact upsert_sets_fields st k v g t r this.1 hrk
    · exact insertMeasBatch_values g t rest (upsertMeasurement st k0 v0 g t) hnd'
        k v hm r hr hrk

/-- C1. Ingesting the same measurement batch twice (the batch's composite
keys being distinct, the defined case for the engine's conflict clause):
for every composite key the row count is unchanged by the second
ingestion, and every row whose key the batch mentions carries the value of
that (most recent) ingestion together with its granularity and ingestion
timestamp. -/
theorem ingest_idempotent (b : List (MKey × Option PyFloat)) (g : Int) (t1 t2 : Nat)
    (tbl0 : List MeasRow) (s0 : Nat) (hnd : (b.map Prod.fst).Nodup) :
    (∀ k, countKey (insertMeasBatch b g t2 (insertMeasBatch b g t1 (tbl0, s0))).1 k =
      countKey (insertMeasBatch b g t1 (tbl0, s0)).1 k) ∧
    (∀ k v, (k, v) ∈ b →
      ∀ r ∈ (insertMeasBatch b g t2 (insertMeasBatch b g t1 (tbl0, s0))).1, r.key = k →
        r.value = v ∧ r.granularity = g ∧ r.created_at = t2) := by
  constructor
  · intro k
    apply insertMeasBatch_count_preserved
    intro p hp
    exact insertMeasBatch_present g t1 b (tbl0, s0) p.1 (Or.inl ⟨p.2, hp⟩)
  · intro k v hkv
    exact insertMeasBatch_values g t2 b (insertMeasBatch b g t1 (tbl0, s0)) hnd k v hkv

def wKey : MKey := ⟨1, "S_PM25".data, "2024-01-01 08:00:00".data, "Average".data⟩

def wBatch : List (MKey × Option PyFloat) := [(wKey, some (.finite ⟨234, 1⟩))]

/-- C1 (witness): a concrete one-row batch ingested twice keeps a single
row for its key, and that row holds the second ingestion's metadata. -/
theorem ingest_idempotent_witness :
    countKey (insertMeasBatch wBatch 60 7 (insertMeasBatch wBatch 60 3 ([], 0))).1 wKey =
      countKey (insertMeasBatch wBatch 60 3 ([], 0)).1 wKey :=
  (ingest_idempotent wBatch 60 3 7 [] 0 (by decide)).1 wKey

/-- One stored row of the `monitors` table. -/
structure MonitorRow where
  monitor_id : Nat
  monitor_code : Str
  monitor_name : Str
  unit : Str
deriving DecidableEq, Repr

/-- `INSERT INTO monitors VALUES (nextval('monitor_seq'), ?, ?, ?)
ON CONFLICT (monitor_code) DO UPDATE SET monitor_name, unit`: the sequence
value is computed for the candidate row (so the sequence advances on every
attempt), then a code conflict turns the insert into an update of the
existing row's name and unit. -/
def upsertMonitorRow (st : List MonitorRow × Nat) (code name unit : Str) :
    List MonitorRow × Nat :=
  if st.1.any (fun r => decide (r.monitor_code = code)) then
    (st.1.map (fun r => if r.monitor_code = code then
        { r with monitor_name := name, unit := unit } else r),
     st.2 + 1)
  else (st.1 ++ [⟨st.2, code, name, unit⟩], st.2 + 1)

/-- C10. Upserting a monitor whose code already exists overwrites only the
display name and unit: every row keeps its surrogate `monitor_id` and its
`monitor_code` (pointwise), rows with other codes are untouched, and the
surrogate-id sequence still advances by one on the attempted insert. -/
theorem monitor_upsert_frame (tbl : List MonitorRow) (seq : Nat) (code name unit : Str)
    (h : tbl.any (fun r => decide (r.monitor_code = code)) = true) :
    (upsertMonitorRow (tbl, seq) code name unit).2 = seq + 1 ∧
    ((upsertMonitorRow (tbl, seq) code name unit).1.map
        (fun r => (r.monitor_id, r.monitor_code)) =
      tbl.map (fun r => (r.monitor_id, r.monitor_code))) ∧
    (∀ r ∈ (upsertMonitorRow (tbl, seq) code name unit).1,
      r.monitor_code = code → r.monitor_name = name ∧ r.unit = unit) ∧
    (∀ r ∈ (upsertMonitorRow (tbl, seq) code name unit).1,
      r.monitor_code ≠ code → r ∈ tbl) := by
  unfold upsertMonitorRow
  rw [if_pos h]
  refine ⟨rfl, ?_, ?_, ?_⟩
  · rw [List.map_map]
    apply List.map_congr_left
    intro r _
    by_cases hc : r.monitor_code = code
    · simp [hc]
    · simp [hc]
  · intro r hr hrc
    obtain ⟨r0, _, rfl⟩ := List.mem_map.mp hr
    by_cases hc : r0.monitor_code = code
    · simp [hc]
    · rw [if_neg hc] at hrc ⊢
      exact absurd hrc hc
  · intro r hr hrc
    obtain ⟨r0, hr0, rfl⟩ := List.mem_map.mp hr
    by_cases hc : r0.monitor_code = code
    · rw [if_pos hc] at hrc
      exact absurd hc hrc
    · rw [if_neg hc]
      exact hr0

/-- C10 (witness): the frame property at a concrete one-row table. -/
theorem monitor_upsert_frame_witness :
    (upsertMonitorRow ([⟨5, "S_PM25".data, "old".data, "ug".data⟩], 9)
      ("S_PM25".data) ("PM2.5".data) ("ug/m3".data)).2 = 9 + 1 :=
  (monitor_upsert_frame [⟨5, "S_PM25".data, "old".data, "ug".data⟩] 9
    ("S_PM25".data) ("PM2.5".data) ("ug/m3".data) (by decide)).1

/-- One stored row of the `stations` table. -/
structure StationRow where
  station_id : Nat
  station_name : Str
deriving DecidableEq, Repr

/-- `INSERT INTO stations VALUES (?, ?) ON CONFLICT (station_id) DO UPDATE
SET station_name`. -/
def upsertStation (tbl : List StationRow) (sid : Nat) (name : Str) : List StationRow :=
  if tbl.any (fun r => decide (r.station_id = sid)) then
    tbl.map (fun r => if r.station_id = sid then { r with station_name := name } else r)
  else tbl ++ [⟨sid, name⟩]

/-- The embedded database connection state: the three tables, the two
surrogate-id sequences, and the set of views registered on the connection
(`conn.register` / `conn.unregister` of the per-file dataframe). -/
structure DB where
  stations : List StationRow
  monitors : List MonitorRow
  monitorSeq : Nat
  measurements : List MeasRow
  measurementSeq : Nat
  registeredView : Option (List Meas)
deriving DecidableEq, Repr

/-- `insert_data_duckdb` from `load_to_duckdb.py`: upsert the station, then
each monitor of the registry; for a non-empty dataframe, register it as the
view `temp_measurements`, run the conflict-resolving batch insert, and
unregister the view.  `execRaises` models an exception thrown by the
measurement `INSERT` statement: the `except` clause only logs it, and in
that case the `unregister` call — placed after the insert inside the `try`
block — is never reached. -/
def insert_data_duckdb (db : DB) (df : List Meas) (sid : Nat) (sname : Str)
    (mons : Monitors) (report_type : Str) (granularity : Int) (now : Nat)
    (execRaises : Bool) : DB :=
  let db1 := { db with stations := upsertStation db.stations sid sname }
  let db2 := mons.foldl (fun d p =>
    let r := upsertMonitorRow (d.monitors, d.monitorSeq) p.2.code p.2.name p.2.unit
    { d with monitors := r.1, monitorSeq := r.2 }) db1
  if df = [] then db2
  else
    let db3 := { db2 with registeredView := some df }
    if execRaises then db3
    else
      let st := insertMeasBatch
        (df.map (fun r => (⟨r.station_id, r.monitor_code, r.timestamp, report_type⟩, r.value)))
        granularity now (db3.measurements, db3.measurementSeq)
      { db3 with measurements := st.1, measurementSeq := st.2, registeredView := none }

def emptyDB : DB := ⟨[], [], 0, [], 0, none⟩

/-- C6 (counterexample). When the measurement insert raises, the per-file
insert returns with the `temp_measurements` view still registered: the
`unregister` call sits after the insert inside the `try` block, so the
exception path skips it. -/
theorem view_leak_cex :
    (insert_data_duckdb emptyDB [demoMeas] 1 ("Centro".data) demoMons
      ("Average".data) 60 0 true).registeredView = some [demoMeas] ∧
    (insert_data_duckdb emptyDB [demoMeas] 1 ("Centro".data) demoMons
      ("Average".data) 60 0 true).registeredView ≠ none := by
  refine ⟨rfl, ?_⟩
  intro h
  rw [show (insert_data_duckdb emptyDB [demoMeas] 1 ("Centro".data) demoMons
    ("Average".data) 60 0 true).registeredView = some [demoMeas] from rfl] at h
  exact absurd h (by simp)

/-- C6 (amended). For a non-empty batch the transient view is released
before the per-file insert returns when the measurement insert succeeds;
when the insert raises, the caught exception skips the release and the
view remains registered until the next file's registration replaces it. -/
theorem view_scoping (db : DB) (df : List Meas) (sid : Nat) (sname : Str)
    (mons : Monitors) (rt : Str) (g : Int) (now : Nat) (hdf : df ≠ []) :
    (insert_data_duckdb db df sid sname mons rt g now false).registeredView = none ∧
    (insert_data_duckdb db df sid sname mons rt g now true).registeredView = some df := by
  unfold insert_data_duckdb
  rw [if_neg hdf, if_neg hdf]
  exact ⟨rfl, rfl⟩

/-- C6 (witness): the success path at concrete inputs. -/
theorem view_scoping_witness :
    (insert_data_duckdb emptyDB [demoMeas] 1 ("Centro".data) demoMons
      ("Average".data) 60 0 false).registeredView = none :=
  (view_scoping emptyDB [demoMeas] 1 ("Centro".data) demoMons
    ("Average".data) 60 0 (by decide)).1

/-! ## Filename/station resolution (`parse_filename`, `process_json_file`) -/

/-- `parse_filename`: the regex `^(\d+)_` — a leading run of digits
terminated by an underscore — yields the station id. -/
def parse_filename (name : Str) : Option Nat :=
  let ds := name.takeWhile Char.isDigit
  if ds ≠ [] ∧ (name.drop ds.length).head? = some '_' then some (digitsVal ds)
  else none

/-- Python `str.split(sep)` for a one-character separator. -/
def splitOnChar (sep : Char) : Str → List Str
  | [] => [[]]
  | c :: rest =>
    let r := splitOnChar sep rest
    if c = sep then [] :: r
    else
      match r with
      | [] => [[c]]
      | h :: t => (c :: h) :: t

/-- The station display name computed by `process_json_file`:
`parts = stem.split('_'); parts[1] if len(parts) > 1 else
f"Estación {station_id}"`. -/
def stationNameOf (stem : Str) (sid : Nat) : Str :=
  match splitOnChar '_' stem with
  | _ :: second :: _ => second
  | _ => ("Estación ".data) ++ Nat.toDigits 10 sid

/-- Splitting a separator-free string is the identity. -/
theorem splitOnChar_not_mem (sep : Char) :
    ∀ (s : Str), sep ∉ s → splitOnChar sep s = [s]
  | [], _ => rfl
  | c :: rest, h => by
    have hc : ¬ c = sep := fun e => h (e ▸ List.mem_cons_self c rest)
    have ih := splitOnChar_not_mem sep rest (fun m => h (List.mem_cons_of_mem c m))
    simp only [splitOnChar, if_neg hc, ih]

/-- Splitting peels off the first separator-free chunk. -/
theorem splitOnChar_append (sep : Char) :
    ∀ (xs ys : Str), sep ∉ xs →
      splitOnChar sep (xs ++ sep :: ys) = xs :: splitOnChar sep ys
  | [], ys, _ => by simp [splitOnChar]
  | c :: xs, ys, h => by
    have hc : ¬ c = sep := fun e => h (e ▸ List.mem_cons_self c xs)
    have ih := splitOnChar_append sep xs ys (fun m => h (List.mem_cons_of_mem c m))
    simp only [List.cons_append, splitOnChar, if_neg hc, List.append_eq, ih]

/-- A leading digit run stops exactly at the underscore. -/
theorem takeWhile_digits_underscore :
    ∀ (ds tail : Str), (∀ c ∈ ds, c.isDigit = true) →
      (ds ++ '_' :: tail).takeWhile Char.isDigit = ds
  | [], tail, _ => by simp [List.takeWhile_cons]
  | c :: ds, tail, h => by
    have hc : c.isDigit = true := h c (List.mem_cons_self c ds)
    have ih := takeWhile_digits_underscore ds tail (fun x hx => h x (List.mem_cons_of_mem c hx))
    simp only [List.cons_append, List.takeWhile_cons, hc, if_true, ih]

/-- C5 (counterexample). For the stem `"12_Foo_Bar"` the derived station
name is `"Foo"`, the first underscore-separated token after the id — not
the full remainder `"Foo_Bar"` of the filename after the station-id
prefix; and with no remainder the default label is `"Estación 12"`, not
`"Station 12"`. -/
theorem station_name_cex :
    stationNameOf ("12_Foo_Bar".data) 12 = ("Foo".data) ∧
    ("Foo".data : Str) ≠ ("Foo_Bar".data) ∧
    stationNameOf ("12".data) 12 = ("Estación 12".data) ∧
    ("Estación 12".data : Str) ≠ ("Station 12".data) := by decide

/-- C5 (amended). The station id is the leading digit run before the first
underscore, and the station display name is the second
underscore-separated token of the filename stem — i.e. only the first
segment of the remainder after the station-id prefix; a stem with no
underscore yields the synthesized default label `"Estación <id>"`. -/
theorem station_name_amended (sid : Nat) (pre first rest : Str)
    (hpre : '_' ∉ pre) (hfirst : '_' ∉ first)
    (hdig : ∀ c ∈ pre, c.isDigit = true) (hne : pre ≠ []) :
    parse_filename (pre ++ '_' :: first) = some (digitsVal pre) ∧
    stationNameOf (pre ++ '_' :: (first ++ '_' :: rest)) sid = first ∧
    stationNameOf (pre ++ '_' :: first) sid = first ∧
    stationNameOf pre sid = ("Estación ".data) ++ Nat.toDigits 10 sid := by
  refine ⟨?_, ?_, ?_, ?_⟩
  · unfold parse_filename
    rw [takeWhile_digits_underscore pre first hdig]
    rw [if_pos ⟨hne, by rw [List.drop_left]; rfl⟩]
  · unfold stationNameOf
    rw [splitOnChar_append _ _ _ hpre, splitOnChar_append _ _ _ hfirst]
  · unfold stationNameOf
    rw [splitOnChar_append _ _ _ hpre, splitOnChar_not_mem _ _ hfirst]
  · unfold stationNameOf
    rw [splitOnChar_not_mem _ _ hpre]

/-- C5 (witness): a three-token stem keeps only the middle token. -/
theorem station_name_amended_witness :
    stationNameOf ("12_Centro_Norte".data) 12 = ("Centro".data) :=
  (station_name_amended 12 ("12".data) ("Centro".data) ("Norte".data)
    (by decide) (by decide) (by decide) (by decide)).2.1

/-! ## Process exit behaviour (`main`) -/

/-- The exit code and (success, error) counters of `main`: exit 1 when the
downloads directory is missing, exit 0 via `sys.exit(0)` when it contains
no JSON files, and otherwise one pass over the (sorted) files in which
every per-file exception is caught and counted, always ending in a normal
(zero) exit. -/
def mainRun {α : Type} (dirExists : Bool) (files : List α) (raises : α → Bool) :
    Nat × Nat × Nat :=
  if dirExists = false then (1, 0, 0)
  else if files.isEmpty then (0, 0, 0)
  else
    let counts := files.foldl (fun (se : Nat × Nat) f =>
      if raises f then (se.1, se.2 + 1) else (se.1 + 1, se.2)) (0, 0)
    (0, counts.1, counts.2)

/-- C4 (counterexample). With the downloads directory present but holding
no JSON files, the process exits with code 0 (`sys.exit(0)`), not the
non-zero code the claim requires for "no input files exist at all". -/
theorem main_exit_empty_dir_cex :
    (mainRun true ([] : List Nat) (fun _ => false)).1 = 0 := by decide

/-- C4 (amended). The ingestion process exits non-zero if and only if the
downloads directory is missing; an existing directory with no JSON files
exits zero, and the per-file outcomes (logged and counted) never change
the exit code. -/
theorem main_exit_characterization {α : Type} (dirExists : Bool) (files : List α)
    (raises raises2 : α → Bool) :
    ((mainRun dirExists files raises).1 ≠ 0 ↔ dirExists = false) ∧
    (mainRun dirExists files raises).1 = (mainRun dirExists files raises2).1 := by
  unfold mainRun
  by_cases hd : dirExists = false
  · rw [if_pos hd, if_pos hd]
    exact ⟨⟨fun _ => hd, fun _ => by decide⟩, rfl⟩
  · rw [if_neg hd, if_neg hd]
    by_cases hf : files.isEmpty = true
    · rw [if_pos hf, if_pos hf]
      exact ⟨⟨fun h => absurd rfl h, fun h => absurd h hd⟩, rfl⟩
    · rw [if_neg hf, if_neg hf]
      exact ⟨⟨fun h => absurd rfl h, fun h => absurd h hd⟩, rfl⟩

end ETL
